import Mathlib

/-!
A shallow embedding of the core of `lblconv` (package `lblconv`, files
`ir.go` and `via.go`) together with theorems about its transformation
stages.  Go `float64` values are modelled as exact rationals, Go maps
from attribute name to dynamically typed value are modelled as
association lists over a closed variant type, and the in-place loops of
the Go code (swap-with-last deletion, bucket appends) are modelled as
structurally recursive functions that follow the loops step by step.
-/

set_option autoImplicit false

namespace Lblconv

/-- The largest finite `float64` value, `(2^53 - 1) * 2^971`, used by
`TransformBboxes` as the stand-in aspect ratio of a box with height 0
(`math.MaxFloat64` in the source). -/
def maxFloat64 : ℚ := (2 ^ 53 - 1) * 2 ^ 971

/-- Go `math.Round` followed by conversion to `int`: round half away
from zero.  `Rat.floor` is used so that the definition evaluates by
kernel reduction; `goRound_eq_floor` restates it with `Int.floor`. -/
def goRound (q : ℚ) : ℤ :=
  if 0 ≤ q then (q + 1 / 2).floor else -(-q + 1 / 2).floor

theorem goRound_eq_floor (q : ℚ) :
    goRound q = if 0 ≤ q then ⌊q + 1 / 2⌋ else -⌊-q + 1 / 2⌋ := by
  unfold goRound
  rw [Rat.floor_def', Rat.floor_def', ← Rat.floor_def, ← Rat.floor_def]

theorem goRound_of_nonneg (q : ℚ) (z : ℤ) (h0 : 0 ≤ q) (h1 : (z : ℚ) ≤ q + 1 / 2)
    (h2 : q + 1 / 2 < z + 1) : goRound q = z := by
  rw [goRound_eq_floor, if_pos h0]
  exact Int.floor_eq_iff.mpr ⟨h1, h2⟩

theorem goRound_of_neg (q : ℚ) (z : ℤ) (h0 : ¬0 ≤ q) (h1 : ((-z : ℤ) : ℚ) ≤ -q + 1 / 2)
    (h2 : -q + 1 / 2 < (-z : ℤ) + 1) : goRound q = z := by
  rw [goRound_eq_floor, if_neg h0, Int.floor_eq_iff.mpr ⟨h1, h2⟩, neg_neg]

/-- The dynamically typed attribute values (`map[string]interface{}` in
the source) restricted to the four kinds the repository actually
stores: `float64`, `string`, `[]string` and `bool`. -/
inductive AttrValue where
  | float (x : ℚ)
  | str (s : String)
  | strList (l : List String)
  | boolean (b : Bool)
  deriving DecidableEq, Repr

/-- Attribute maps: association lists with the leftmost binding of a
key taken as its value. -/
abbrev AttrMap := List (String × AttrValue)

/-- Lookup in an attribute map (Go map indexing; `none` models the nil
interface returned for a missing key). -/
def attrLookup (m : AttrMap) (k : String) : Option AttrValue :=
  match m with
  | [] => none
  | p :: rest => if p.1 = k then some p.2 else attrLookup rest k

-- Keys for known annotation attributes (ir.go, lines 22-27).
def AncestorLabels : String := "Ancestors"
def Confidence : String := "Confidence"
def CropCoords : String := "CropCoords"
def DetectedText : String := "Text"

/-- The four coordinates of a bounding box: absolute x1, y1, x2, y2
offsets from the top-left corner (`Coords [4]float64` in the source). -/
structure Coords4 where
  x1 : ℚ
  y1 : ℚ
  x2 : ℚ
  y2 : ℚ
  deriving DecidableEq, Repr

/-- The intermediate representation of an object label. -/
structure Annotation where
  Attributes : AttrMap
  Coords : Coords4
  Label : String
  deriving DecidableEq, Repr

/-- The object width, `Coords[2] - Coords[0]`. -/
def Annotation.Width (a : Annotation) : ℚ := a.Coords.x2 - a.Coords.x1

/-- The object height, `Coords[3] - Coords[1]`. -/
def Annotation.Height (a : Annotation) : ℚ := a.Coords.y2 - a.Coords.y1

/-- The intermediate representation of file metadata. -/
structure AnnotatedFile where
  Annotations : List Annotation
  FilePath : String
  deriving DecidableEq, Repr

/-- `scaleCoords` scales all annotation coordinates by the given scale
factors: even indices (x coordinates) by `width`, odd indices (y
coordinates) by `height`. -/
def scaleCoords (f : AnnotatedFile) (width height : ℚ) : AnnotatedFile :=
  { f with
    Annotations := f.Annotations.map fun a =>
      { a with Coords := ⟨a.Coords.x1 * width, a.Coords.y1 * height,
                          a.Coords.x2 * width, a.Coords.y2 * height⟩ } }

/-- A dataset: the annotation metadata for a list of files
(`AnnotatedFiles` in the source). -/
abbrev AnnotatedFiles := List AnnotatedFile

/-! ## Filter (ir.go, lines 235-348) -/

/-- The parameter bundle of `Filter`, in the order of the Go signature. -/
structure FilterParams where
  labelNames : List String
  attributes : List String
  requiredAttrs : List String
  minConfidence : ℚ
  requireLabel : Bool
  minBboxWidth : ℚ
  minBboxHeight : ℚ
  minAspectRatio : ℚ
  maxAspectRatio : ℚ
  deriving DecidableEq, Repr

/-- The `inList` helper of `Filter`: linear search for a string. -/
def inList (v : String) (l : List String) : Bool :=
  match l with
  | [] => false
  | x :: rest => if x = v then true else inList v rest

/-- The Go expression `v == reflect.Zero(reflect.TypeOf(v)).Interface()`
on an attribute value.  Comparing two interfaces holding slices panics
at runtime in Go (slices are not comparable), which is modelled by
`none`; for the comparable kinds the comparison against the zero value
of the dynamic type is returned. -/
def goZeroCompare : AttrValue → Option Bool
  | .float x => some (decide (x = 0))
  | .str s => some (decide (s = ""))
  | .strList _ => none
  | .boolean b => some (decide (b = false))

/-- The required-attributes loop of `Filter` (ir.go, lines 313-323):
walk `requiredAttrs` in order; a missing key deletes the annotation, a
present key is compared against the zero value of its dynamic type
(which panics, modelled by `none`, for a slice-valued attribute) and
deletes the annotation when equal.  `some true` means the annotation is
deleted, `some false` that it passes. -/
def requiredAttrsCheck : List String → AttrMap → Option Bool
  | [], _ => some false
  | k :: ks, attrs =>
    match attrLookup attrs k with
    | none => some true
    | some v =>
      match goZeroCompare v with
      | none => none
      | some true => some true
      | some false => requiredAttrsCheck ks attrs

/-- The confidence predicate of `Filter` (ir.go, line 271): present as
a float and below the minimum; a missing or non-float confidence
attribute passes. -/
def confFails (P : FilterParams) (a : Annotation) : Bool :=
  match attrLookup a.Attributes Confidence with
  | some (.float c) => decide (c < P.minConfidence)
  | _ => false

/-- The bounding-box size predicate of `Filter` (ir.go, line 281). -/
def sizeFails (P : FilterParams) (a : Annotation) : Bool :=
  decide (P.minBboxWidth > a.Width ∨ P.minBboxHeight > a.Height)

/-- The aspect-ratio predicate of `Filter` (ir.go, lines 289-302):
active when either bound is nonzero; a zero height always fails an
active check. -/
def arFails (P : FilterParams) (a : Annotation) : Bool :=
  decide ((P.minAspectRatio ≠ 0 ∨ P.maxAspectRatio ≠ 0) ∧
    ¬(a.Height ≠ 0 ∧
      (P.minAspectRatio = 0 ∨ a.Width / a.Height ≥ P.minAspectRatio) ∧
      (P.maxAspectRatio = 0 ∨ a.Width / a.Height ≤ P.maxAspectRatio)))

/-- The label allow-list predicate of `Filter` (ir.go, line 305). -/
def labelFails (P : FilterParams) (a : Annotation) : Bool :=
  decide (P.labelNames ≠ [] ∧ inList a.Label P.labelNames = false)

/-- The per-annotation keep/drop decision of `Filter`, with the
predicates in source order: confidence, bounding-box size, aspect
ratio, label allow-list, required attributes.  `some true` keeps the
annotation, `some false` drops it, `none` models the runtime panic of
the required-attributes zero comparison on a slice value. -/
def annDecision (P : FilterParams) (a : Annotation) : Option Bool :=
  if confFails P a then some false
  else if sizeFails P a then some false
  else if arFails P a then some false
  else if labelFails P a then some false
  else
    match requiredAttrsCheck P.requiredAttrs a.Attributes with
    | none => none
    | some true => some false
    | some false => some true

/-- The attribute projection of `Filter` (ir.go, lines 326-332): when
the attribute allow-list is non-empty, delete every attribute whose key
is not listed. -/
def projectAttrs (P : FilterParams) (a : Annotation) : Annotation :=
  if P.attributes = [] then a
  else { a with Attributes := a.Attributes.filter fun p => inList p.1 P.attributes }

/-- One step of the swap-with-last deletion pattern: deleting the
element at the current index replaces it by the last element of the
active slice.  Applied to the remainder of the slice, the new active
slice starts with the previous last element. -/
def swapFront {α : Type} : List α → List α
  | [] => []
  | x :: xs => (x :: xs).getLast (by simp) :: (x :: xs).dropLast

theorem swapFront_length {α : Type} (l : List α) : (swapFront l).length = l.length := by
  cases l with
  | nil => rfl
  | cons x xs => simp [swapFront]

/-- The annotation loop of `Filter` over one file: `done` holds the
already-processed prefix, `todo` the active slice from the current
index on.  A dropped annotation is replaced by the last element of the
active slice (swap-with-last) and the index is revisited; a kept
annotation is appended after attribute projection.  `none` models the
runtime panic of the required-attributes check. -/
def filterAnnosGo (P : FilterParams) (done todo : List Annotation) :
    Option (List Annotation) :=
  match todo with
  | [] => some done
  | a :: rest =>
    match annDecision P a with
    | none => none
    | some false => filterAnnosGo P done (swapFront rest)
    | some true => filterAnnosGo P (done ++ [projectAttrs P a]) rest
termination_by todo.length
decreasing_by
  · simp [swapFront_length]
  · simp

/-- The file loop of `Filter`: each file has its annotations filtered;
when `requireLabel` is set and no annotation survives, the file itself
is removed with the same swap-with-last pattern. -/
def filterFilesGo (P : FilterParams) (done todo : List AnnotatedFile) :
    Option (List AnnotatedFile) :=
  match todo with
  | [] => some done
  | f :: rest =>
    match filterAnnosGo P [] f.Annotations with
    | none => none
    | some anns =>
      if P.requireLabel = true ∧ anns = [] then filterFilesGo P done (swapFront rest)
      else filterFilesGo P (done ++ [{ f with Annotations := anns }]) rest
termination_by todo.length
decreasing_by
  · simp [swapFront_length]
  · simp

/-- `Filter` filters out annotations (and, with `requireLabel`, files)
which fail the configured predicates.  `none` models the runtime panic
of the required-attributes zero comparison on a slice-valued
attribute. -/
def Filter (P : FilterParams) (data : AnnotatedFiles) : Option AnnotatedFiles :=
  filterFilesGo P [] data

/-! ## MapLabels (ir.go, lines 133-169) -/

/-- Go `strings.Replace(s, old, new, -1)` on character lists: all
non-overlapping occurrences are replaced, scanning left to right; an
empty pattern inserts the replacement at the start and after every
character. -/
def goReplaceList (s old new : List Char) : List Char :=
  if h : old = [] then new ++ s.flatMap (fun c => c :: new)
  else
    match s with
    | [] => []
    | c :: rest =>
      if old.isPrefixOf (c :: rest) then
        new ++ goReplaceList ((c :: rest).drop old.length) old new
      else c :: goReplaceList rest old new
termination_by s.length
decreasing_by
  · have : 0 < old.length := List.length_pos.mpr h
    simp only [List.length_drop, List.length_cons]
    omega
  · simp

/-- Go `strings.Replace(s, old, new, -1)` on strings. -/
def goReplace (s old new : String) : String :=
  ⟨goReplaceList s.data old.data new.data⟩

/-- The parsing loop of `MapLabels` (ir.go, lines 139-148): each
mapping must split into exactly two parts on an equals sign; the first
malformed mapping aborts with an error. -/
def parseMappings : List String → Except String (List (String × String))
  | [] => Except.ok []
  | v :: rest =>
    let a := v.splitOn "="
    if a.length = 2 then
      match parseMappings rest with
      | Except.error e => Except.error e
      | Except.ok rs => Except.ok ((a.getD 0 "", a.getD 1 "") :: rs)
    else Except.error ("invalid mapping: " ++ v)

/-- `MapLabels` replaces label (sub-)strings with substitution values.
All mappings are parsed before any label is touched, so a parse error
leaves the dataset exactly as it was (returned unchanged together with
the error). -/
def MapLabels (data : AnnotatedFiles) (mappings : List String) :
    AnnotatedFiles × Option String :=
  if mappings = [] then (data, none)
  else
    match parseMappings mappings with
    | Except.error e => (data, some e)
    | Except.ok reps =>
      (data.map fun f =>
        { f with Annotations := f.Annotations.map fun a =>
            { a with Label := reps.foldl (fun l r => goReplace l r.1 r.2) a.Label } },
       none)

/-! ## TransformBboxes (ir.go, lines 177-221) -/

/-- The anisotropic scale step of `TransformBboxes`: grow or shrink the
box symmetrically about its own center, skipped when both factors are
1. -/
def scaleStep (scaleX scaleY : ℚ) (a : Annotation) : Annotation :=
  if scaleX ≠ 1 ∨ scaleY ≠ 1 then
    let w := a.Width
    let h := a.Height
    let dx := (w * scaleX - w) * (1 / 2)
    let dy := (h * scaleY - h) * (1 / 2)
    { a with Coords := ⟨a.Coords.x1 - dx, a.Coords.y1 - dy,
                        a.Coords.x2 + dx, a.Coords.y2 + dy⟩ }
  else a

/-- The aspect-ratio growth step of `TransformBboxes` (ir.go, lines
196-218): with a target ratio above zero, a box narrower than the
target grows horizontally and a box wider than the target grows
vertically; a box with height 0 stands in with ratio
`math.MaxFloat64`. -/
def aspectStep (aspectRatio : ℚ) (a : Annotation) : Annotation :=
  if 0 < aspectRatio then
    let w := a.Width
    let h := a.Height
    let ratio := if h ≠ 0 then w / h else maxFloat64
    if ratio < aspectRatio then
      let dx := (h * aspectRatio - w) * (1 / 2)
      { a with Coords := ⟨a.Coords.x1 - dx, a.Coords.y1, a.Coords.x2 + dx, a.Coords.y2⟩ }
    else if aspectRatio < ratio then
      let dy := (w / aspectRatio - h) * (1 / 2)
      { a with Coords := ⟨a.Coords.x1, a.Coords.y1 - dy, a.Coords.x2, a.Coords.y2 + dy⟩ }
    else a
  else a

/-- The per-annotation body of `TransformBboxes`: scale, then grow to
the desired aspect ratio. -/
def transformAnn (scaleX scaleY aspectRatio : ℚ) (a : Annotation) : Annotation :=
  aspectStep aspectRatio (scaleStep scaleX scaleY a)

/-- `TransformBboxes` transforms every bounding box of the dataset in
place. -/
def TransformBboxes (data : AnnotatedFiles) (scaleX scaleY aspectRatio : ℚ) :
    AnnotatedFiles :=
  data.map fun f =>
    { f with Annotations := f.Annotations.map (transformAnn scaleX scaleY aspectRatio) }

/-! ## Image geometry (Go image.Rectangle) and cropObjectsFromImage
(ir.go, lines 75-125) -/

/-- Go `image.Rectangle`, with integer pixel coordinates. -/
structure GoRect where
  MinX : ℤ
  MinY : ℤ
  MaxX : ℤ
  MaxY : ℤ
  deriving DecidableEq, Repr

/-- Go `image.Rect(x0, y0, x1, y1)`: the canonical rectangle with the
coordinates swapped into order. -/
def goRect (x0 y0 x1 y1 : ℤ) : GoRect :=
  ⟨min x0 x1, min y0 y1, max x0 x1, max y0 y1⟩

/-- Go `Rectangle.Empty`. -/
def GoRect.Empty (r : GoRect) : Bool :=
  decide (r.MaxX ≤ r.MinX ∨ r.MaxY ≤ r.MinY)

/-- Go `Rectangle.Dx`, the width. -/
def GoRect.Dx (r : GoRect) : ℤ := r.MaxX - r.MinX

/-- Go `Rectangle.Dy`, the height. -/
def GoRect.Dy (r : GoRect) : ℤ := r.MaxY - r.MinY

/-- Go `image.ZR`, the zero rectangle. -/
def zeroRect : GoRect := ⟨0, 0, 0, 0⟩

/-- Go `Rectangle.Intersect`: the largest rectangle contained in both,
or the zero rectangle when the clipped rectangle is empty. -/
def GoRect.Intersect (r s : GoRect) : GoRect :=
  let t : GoRect := ⟨max r.MinX s.MinX, max r.MinY s.MinY,
                     min r.MaxX s.MaxX, min r.MaxY s.MaxY⟩
  if t.Empty then zeroRect else t

/-- A decoded image as far as the metadata pipeline observes it: its
pixel bounds and whether its concrete type provides `SubImage`. -/
structure GoImage where
  Bounds : GoRect
  subImageCapable : Bool
  deriving DecidableEq, Repr

/-- Go `filepath.Ext`: the suffix of the path beginning at the final
dot in the final slash-separated element, empty if there is no dot.
The helper scans the reversed character list, accumulating the suffix
seen so far. -/
def goExtGo : List Char → List Char → List Char
  | [], _ => []
  | c :: rest, acc =>
    if c = '/' then []
    else if c = '.' then c :: acc
    else goExtGo rest (c :: acc)

/-- Go `filepath.Ext` on strings. -/
def goExt (s : String) : String := ⟨goExtGo s.data.reverse []⟩

/-- Go `fmt.Sprintf("%02d", n)` for a non-negative index: decimal,
zero-padded to at least two digits. -/
def pad2 (n : ℕ) : String := if n < 10 then "0" ++ toString n else toString n

/-- The crop file path (ir.go, lines 105-106): the original path with
an underscore and the zero-padded annotation index inserted before the
file extension. -/
def cropFilePath (path : String) (i : ℕ) : String :=
  let ext := goExt path
  path.dropRight ext.length ++ "_" ++ pad2 i ++ ext

/-- The shallow clone of the attributes of a cropped annotation with
the `CropCoords` attribute set (ir.go, lines 98-102).  Setting a key in
a Go map overwrites any previous binding, modelled by filtering out any
stale `CropCoords` binding before appending the new one. -/
def cropAttrs (attrs : AttrMap) (r : GoRect) : AttrMap :=
  attrs.filter (fun p => decide (p.1 ≠ CropCoords)) ++
    [(CropCoords, .str ("(" ++ toString r.MinX ++ "," ++ toString r.MinY ++ ")(" ++
      toString r.MaxX ++ "," ++ toString r.MaxY ++ ")"))]

/-- The single-annotation derived file for one crop (ir.go, lines
104-118): full-area coordinates, the original label, the cloned
attributes with `CropCoords`, and the index-derived path. -/
def cropDerivedFile (f : AnnotatedFile) (i : ℕ) (a : Annotation) (r : GoRect) :
    AnnotatedFile :=
  { Annotations := [{ Attributes := cropAttrs a.Attributes r,
                      Coords := ⟨0, 0, (r.Dx : ℚ), (r.Dy : ℚ)⟩,
                      Label := a.Label }],
    FilePath := cropFilePath f.FilePath i }

/-- The rounded integer pixel rectangle of an annotation (ir.go, lines
90-91). -/
def annRect (a : Annotation) : GoRect :=
  goRect (goRound a.Coords.x1) (goRound a.Coords.y1)
    (goRound a.Coords.x2) (goRound a.Coords.y2)

/-- `cropObjectsFromImage` returns a crop rectangle and a derived
single-annotation file for each annotation whose rounded bounding box
intersects the image bounds; an empty intersection skips the
annotation.  An image type without `SubImage` is an error. -/
def cropObjectsFromImage (f : AnnotatedFile) (img : GoImage) :
    Except String (List GoRect × List AnnotatedFile) :=
  if img.subImageCapable = false then
    Except.error ("the image type of " ++ f.FilePath ++
      " does not provide a SubImage method")
  else
    Except.ok (f.Annotations.enum.foldl
      (fun acc p =>
        let r := (annRect p.2).Intersect img.Bounds
        if r.Empty then acc
        else (acc.1 ++ [r], acc.2 ++ [cropDerivedFile f p.1 p.2 r]))
      ([], []))

/-! ## resizeImage (via.go, lines 252-296) -/

/-- The geometry of `resizeImage`: from the source pixel dimensions and
the requested longer/shorter target sides (one of which may be zero,
meaning derived from the aspect ratio), compute the output dimensions
`(width, height)` and the width and height scale factors.  The choice
of resampling filter only affects pixel values and is not modelled. -/
def resizeImage (imgWidth imgHeight : ℤ) (longerSide shorterSide : ℤ) :
    (ℤ × ℤ) × ℚ × ℚ :=
  let imgLonger : ℤ := if imgHeight > imgWidth then imgHeight else imgWidth
  let imgShorter : ℤ := if imgHeight > imgWidth then imgWidth else imgHeight
  let ls : ℤ :=
    if longerSide ≤ 0 then
      goRound ((shorterSide : ℚ) * ((imgLonger : ℚ) / (imgShorter : ℚ)))
    else longerSide
  let ss : ℤ :=
    if longerSide ≤ 0 then shorterSide
    else if shorterSide ≤ 0 then
      goRound ((longerSide : ℚ) * ((imgShorter : ℚ) / (imgLonger : ℚ)))
    else shorterSide
  if imgHeight > imgWidth then
    ((ss, ls), (ss : ℚ) / (imgShorter : ℚ), (ls : ℚ) / (imgLonger : ℚ))
  else
    ((ls, ss), (ls : ℚ) / (imgLonger : ℚ), (ss : ℚ) / (imgShorter : ℚ))

/-! ## ProcessImages (ir.go, lines 356-547), modelled sequentially

The concurrent work queue distributes whole files to workers which run
the load/crop/resize/save sequence per file; the model executes the
same per-file sequence in input order and records the filesystem
events, retaining the first error as the single-slot error channel
does. -/

/-- A filesystem event of the image pipeline. -/
inductive IOEvent where
  | readImage (path : String)
  | writeImage (path : String)
  deriving DecidableEq, Repr

/-- Go `filepath.Base` restricted to the paths the pipeline builds: the
final slash-separated element. -/
def goBase (s : String) : String :=
  if s = "" then "."
  else ⟨(s.data.reverse.takeWhile (fun c => decide (c ≠ '/'))).reverse⟩

/-- Go `filepath.Join` of an output directory and a file name
(path cleaning is not modelled). -/
def joinPath (dir name : String) : String :=
  if dir = "" then name else dir ++ "/" ++ name

/-- The per-image tail of `processImage` (ir.go, lines 512-546) for one
image of pixel dimensions `w × h`: optionally resize, save under the
output directory with the encoding extension, update the file path,
and rescale the coordinates by the resize scale factors. -/
def processOne (imageOutDir fileExt : String) (longerSide shorterSide : ℤ)
    (doResizeImages : Bool) (w h : ℤ) (d : AnnotatedFile) :
    AnnotatedFile × IOEvent :=
  let scales := (resizeImage w h longerSide shorterSide).2
  let inName := goBase d.FilePath
  let outName := inName.dropRight (goExt inName).length ++ fileExt
  let outPath := joinPath imageOutDir outName
  let d2 := { d with FilePath := outPath }
  let d3 := if doResizeImages then scaleCoords d2 scales.1 scales.2 else d2
  (d3, IOEvent.writeImage outPath)

/-- The per-file body of `processImage` (ir.go, lines 472-547): load
the image, optionally crop the labelled objects, then process the
original image or each crop.  Returns the error of this file (if any),
the dataset entries this file contributes, and the filesystem events. -/
def processImageSeq (env : String → Option GoImage) (imageOutDir fileExt : String)
    (longerSide shorterSide : ℤ) (doCropObjects doResizeImages : Bool)
    (f : AnnotatedFile) : Option String × List AnnotatedFile × List IOEvent :=
  match env f.FilePath with
  | none =>
    (some ("cannot decode image " ++ f.FilePath),
     if doCropObjects then [] else [f],
     [IOEvent.readImage f.FilePath])
  | some img =>
    if doCropObjects then
      match cropObjectsFromImage f img with
      | Except.error e => (some e, [], [IOEvent.readImage f.FilePath])
      | Except.ok (rects, files) =>
        let processed := (rects.zip files).map (fun p =>
          processOne imageOutDir fileExt longerSide shorterSide doResizeImages
            p.1.Dx p.1.Dy p.2)
        (none, processed.map (·.1),
         IOEvent.readImage f.FilePath :: processed.map (·.2))
    else
      let p := processOne imageOutDir fileExt longerSide shorterSide doResizeImages
        img.Bounds.Dx img.Bounds.Dy f
      (none, [p.1], [IOEvent.readImage f.FilePath, p.2])

/-- `ProcessImages`: when neither resizing nor cropping is requested
the call returns immediately with the dataset untouched and no
filesystem access; otherwise the resampling filter names and the
encoding are validated (in that order) and every file is processed,
with the first per-file error reported after all files were handled. -/
def ProcessImages (env : String → Option GoImage) (imageOutDir : String)
    (longerSide shorterSide : ℤ)
    (downsamplingFilter upsamplingFilter encoding : String)
    (jpegQuality : ℤ) (doCropObjects : Bool) (data : AnnotatedFiles) :
    Except String (AnnotatedFiles × List IOEvent) :=
  let doResizeImages : Bool := decide (0 < longerSide) || decide (0 < shorterSide)
  if doResizeImages = false ∧ doCropObjects = false then Except.ok (data, [])
  else
    let filterNames := ["nearest", "box", "linear", "gaussian", "lanczos"]
    if downsamplingFilter ∉ filterNames then
      Except.error ("unknown resampling filter " ++ downsamplingFilter)
    else if upsamplingFilter ∉ filterNames then
      Except.error ("unknown resampling filter " ++ upsamplingFilter)
    else
      let enc := encoding.toLower
      if enc = "jpg" ∨ enc = "jpeg" ∨ enc = "png" then
        let fileExt := if enc = "png" then ".png" else ".jpg"
        let results := data.map (processImageSeq env imageOutDir fileExt
          longerSide shorterSide doCropObjects doResizeImages)
        match (results.filterMap (·.1)).head? with
        | some e => Except.error e
        | none => Except.ok (results.flatMap (·.2.1), results.flatMap (·.2.2))
      else Except.error ("unsupported output encoding " ++ encoding)

/-! ## Split (ir.go, lines 553-582) -/

/-- The inner bucket search of `Split`: the index of the first
cumulative boundary strictly above the draw, if any. -/
def assign (splits : List ℤ) (r : ℤ) : Option ℕ :=
  match splits with
  | [] => none
  | s :: rest => if r < s then some 0 else (assign rest r).map (· + 1)

/-- The distribution loop of `Split`: file `j` is appended to the first
bucket whose cumulative boundary exceeds its draw `g j`; a file without
a matching bucket is silently skipped (unreachable when the final
boundary is 100 and draws are below 100). -/
def splitLoopGo (g : ℕ → ℕ) (splits : List ℤ) :
    ℕ → List AnnotatedFile → List AnnotatedFiles → List AnnotatedFiles
  | _, [], bks => bks
  | j, d :: ds, bks =>
    splitLoopGo g splits (j + 1) ds
      (match assign splits ((g j : ℤ)) with
       | some i => bks.set i (bks.getD i [] ++ [d])
       | none => bks)

/-- `Split` randomly splits the data into multiple datasets according
to the cumulative percentage boundaries.  The draw for the `j`-th file
is `g j`, standing for `rng.Intn(100)`; the capacity preallocation of
the source only sizes buffers and is not modelled, but its running
`sum` ends as the final boundary entry (or 0 for an empty list), which
is what the validation checks against 100. -/
def Split (g : ℕ → ℕ) (data : AnnotatedFiles) (cumulativeSplits : List ℤ) :
    Except String (List AnnotatedFiles) :=
  let sum := cumulativeSplits.foldl (fun _ s => s) 0
  if sum ≠ 100 then Except.error "the split percentages do not add up to 100"
  else Except.ok (splitLoopGo g cumulativeSplits 0 data
    (List.replicate cumulativeSplits.length []))

/-! ## Theorems about the claims -/

/-- Claim C5: under `Filter` with `minConfidence` one half and every
other predicate neutral, an annotation whose `Confidence` attribute is
the float 0.4 is removed, while an annotation with `Confidence` 0.6 and
an annotation with no `Confidence` attribute at all both pass the
confidence predicate; the survivors appear in swap-with-last order. -/
theorem filter_confidence_concrete :
    Filter ⟨[], [], [], 1 / 2, false, 0, 0, 0, 0⟩
      [⟨[⟨[(Confidence, AttrValue.float (2 / 5))], ⟨0, 0, 1, 1⟩, "x"⟩,
         ⟨[(Confidence, AttrValue.float (3 / 5))], ⟨0, 0, 1, 1⟩, "x"⟩,
         ⟨[], ⟨0, 0, 1, 1⟩, "x"⟩], "f.jpg"⟩] =
      some [⟨[⟨[], ⟨0, 0, 1, 1⟩, "x"⟩,
              ⟨[(Confidence, AttrValue.float (3 / 5))], ⟨0, 0, 1, 1⟩, "x"⟩], "f.jpg"⟩] := by
  norm_num [Filter, filterFilesGo, filterAnnosGo, annDecision, confFails, sizeFails,
    arFails, labelFails, attrLookup, Confidence, requiredAttrsCheck, projectAttrs,
    swapFront, Annotation.Width, Annotation.Height]

/-- Claim C1 (evaluation of the code bug): with `requiredAttrs` naming
the list-of-string `Ancestors` attribute, the required-attributes check
compares two interfaces holding slices, which panics at runtime in Go
(modelled by `none`), instead of keeping the annotation whose list
value is non-empty. -/
theorem filter_requiredAttrs_slice_panic :
    Filter ⟨[], [], [AncestorLabels], 0, false, 0, 0, 0, 0⟩
      [⟨[⟨[(AncestorLabels, AttrValue.strList ["animal"])], ⟨0, 0, 1, 1⟩, "cat"⟩],
        "f.jpg"⟩] = none := by
  norm_num [Filter, filterFilesGo, filterAnnosGo, annDecision, confFails, sizeFails,
    arFails, labelFails, attrLookup, Confidence, AncestorLabels, requiredAttrsCheck,
    goZeroCompare, Annotation.Width, Annotation.Height]
  decide

/-- Claim C8: resizing a 200 by 100 image with `longerSide` 100 and
`shorterSide` 0 produces a 100 by 50 image with horizontal and vertical
scale factors one half, and the subsequent coordinate rescale maps an
annotation at (20,20,60,60) to (10,10,30,30). -/
theorem resize_concrete :
    resizeImage 200 100 100 0 = ((100, 50), 1 / 2, 1 / 2) ∧
    scaleCoords ⟨[⟨[], ⟨20, 20, 60, 60⟩, "x"⟩], "f.jpg"⟩ (1 / 2) (1 / 2) =
      ⟨[⟨[], ⟨10, 10, 30, 30⟩, "x"⟩], "f.jpg"⟩ := by
  have h50 : goRound (50 : ℚ) = 50 :=
    goRound_of_nonneg _ _ (by norm_num) (by norm_num) (by norm_num)
  constructor
  · norm_num [resizeImage, h50]
  · norm_num [scaleCoords]

/-- Claim C9: with `longerSide` and `shorterSide` nonpositive and
cropping disabled, `ProcessImages` returns successfully at once: the
dataset is returned unchanged and no image is read or written,
regardless of the remaining configuration, including unsupported filter
or encoding names. -/
theorem processImages_noop (env : String → Option GoImage) (imageOutDir : String)
    (longerSide shorterSide : ℤ)
    (downsamplingFilter upsamplingFilter encoding : String)
    (jpegQuality : ℤ) (data : AnnotatedFiles)
    (hl : longerSide ≤ 0) (hs : shorterSide ≤ 0) :
    ProcessImages env imageOutDir longerSide shorterSide downsamplingFilter
      upsamplingFilter encoding jpegQuality false data = Except.ok (data, []) := by
  have h1 : ¬(0 < longerSide) := not_lt.mpr hl
  have h2 : ¬(0 < shorterSide) := not_lt.mpr hs
  simp [ProcessImages, h1, h2]

theorem scaleStep_one (a : Annotation) : scaleStep 1 1 a = a := by
  unfold scaleStep
  simp

/-- Claim C3 (amended): for every annotation with non-negative width
and height, not both zero, and every aspect ratio strictly between 0
and `math.MaxFloat64`, after the bbox transform with neutral scale
factors the resulting width over height equals the aspect ratio
exactly (the model computes with exact rationals), neither width nor
height shrinks, and a box with height 0 is grown vertically.  The upper
bound on the aspect ratio is forced by `transform_aspect_cex`: at
`aspectRatio = MaxFloat64` a box of height 0 is compared against the
stand-in ratio `MaxFloat64`, neither strict comparison fires, and the
box is left unchanged. -/
theorem transform_aspect (a : Annotation) (r : ℚ)
    (hw : 0 ≤ a.Width) (hh : 0 ≤ a.Height) (hnz : ¬(a.Width = 0 ∧ a.Height = 0))
    (hr : 0 < r) (hmax : r < maxFloat64) :
    (transformAnn 1 1 r a).Width / (transformAnn 1 1 r a).Height = r ∧
    a.Width ≤ (transformAnn 1 1 r a).Width ∧
    a.Height ≤ (transformAnn 1 1 r a).Height ∧
    (a.Height = 0 → a.Height < (transformAnn 1 1 r a).Height) := by
  have ht : transformAnn 1 1 r a = aspectStep r a := by
    unfold transformAnn; rw [scaleStep_one]
  rw [ht]
  unfold aspectStep
  rw [if_pos hr]
  by_cases h0 : a.Height = 0
  · have hW : 0 < a.Width := lt_of_le_of_ne hw (fun e => hnz ⟨e.symm, h0⟩)
    simp only [h0, ne_eq, not_true_eq_false, if_false]
    rw [if_neg (not_lt.mpr hmax.le), if_pos hmax]
    simp only [ Annotation.Width, Annotation.Height] at hW ⊢
    have hH : a.Coords.y2 + ((a.Coords.x2 - a.Coords.x1) / r - 0) * (1 / 2) -
        (a.Coords.y1 - ((a.Coords.x2 - a.Coords.x1) / r - 0) * (1 / 2)) =
        (a.Coords.x2 - a.Coords.x1) / r := by
      have h0' : a.Coords.y2 - a.Coords.y1 = 0 := h0
      linear_combination h0'
    rw [hH]
    refine ⟨?_, le_refl _, ?_, fun _ => ?_⟩
    · rw [div_div_eq_mul_div, mul_comm, mul_div_assoc, div_self hW.ne', mul_one]
    · exact (div_pos hW hr).le
    · exact div_pos hW hr
  · have hHp : 0 < a.Height := lt_of_le_of_ne hh (Ne.symm h0)
    simp only [ne_eq, h0, not_false_eq_true, if_true]
    rcases lt_trichotomy (a.Width / a.Height) r with hlt | heq | hgt
    · -- ratio below target: horizontal growth
      rw [if_pos hlt]
      have hwlt : a.Width < r * a.Height := (div_lt_iff₀ hHp).mp hlt
      simp only [ Annotation.Width, Annotation.Height] at hHp hwlt h0 ⊢
      have hWi : a.Coords.x2 +
          ((a.Coords.y2 - a.Coords.y1) * r - (a.Coords.x2 - a.Coords.x1)) * (1 / 2) -
          (a.Coords.x1 -
            ((a.Coords.y2 - a.Coords.y1) * r - (a.Coords.x2 - a.Coords.x1)) * (1 / 2)) =
          (a.Coords.y2 - a.Coords.y1) * r := by ring
      rw [hWi]
      refine ⟨?_, by linarith, le_refl _, fun hc => hc.elim⟩
      rw [mul_comm, mul_div_assoc, div_self hHp.ne', mul_one]
    · -- ratio equal: unchanged
      rw [if_neg (not_lt.mpr heq.ge), if_neg (not_lt.mpr heq.le)]
      exact ⟨heq, le_refl _, le_refl _, fun hc => hc.elim⟩
    · -- ratio above target: vertical growth
      rw [if_neg (not_lt.mpr hgt.le), if_pos hgt]
      have hrh : r * a.Height < a.Width := (lt_div_iff₀ hHp).mp hgt
      have hW : 0 < a.Width := lt_trans (mul_pos hr hHp) hrh
      simp only [ Annotation.Width, Annotation.Height] at hHp hrh hW h0 ⊢
      have hHi : a.Coords.y2 +
          ((a.Coords.x2 - a.Coords.x1) / r - (a.Coords.y2 - a.Coords.y1)) * (1 / 2) -
          (a.Coords.y1 -
            ((a.Coords.x2 - a.Coords.x1) / r - (a.Coords.y2 - a.Coords.y1)) * (1 / 2)) =
          (a.Coords.x2 - a.Coords.x1) / r := by ring
      rw [hHi]
      refine ⟨?_, le_refl _, ?_, fun hc => hc.elim⟩
      · rw [div_div_eq_mul_div, mul_comm, mul_div_assoc, div_self hW.ne', mul_one]
      · exact ((lt_div_iff₀ hr).mpr (by linarith)).le

/-- Counterexample to claim C3 as stated: at `aspectRatio =
math.MaxFloat64` (a positive value) and a box of width 1 and height 0
(non-negative, not both zero), the transform leaves the box unchanged,
so its ratio does not match and the zero height is not grown. -/
theorem transform_aspect_cex :
    ¬((transformAnn 1 1 maxFloat64 ⟨[], ⟨0, 0, 1, 0⟩, "x"⟩).Width /
        (transformAnn 1 1 maxFloat64 ⟨[], ⟨0, 0, 1, 0⟩, "x"⟩).Height = maxFloat64 ∧
      (⟨[], ⟨0, 0, 1, 0⟩, "x"⟩ : Annotation).Width ≤
        (transformAnn 1 1 maxFloat64 ⟨[], ⟨0, 0, 1, 0⟩, "x"⟩).Width ∧
      (⟨[], ⟨0, 0, 1, 0⟩, "x"⟩ : Annotation).Height ≤
        (transformAnn 1 1 maxFloat64 ⟨[], ⟨0, 0, 1, 0⟩, "x"⟩).Height ∧
      ((⟨[], ⟨0, 0, 1, 0⟩, "x"⟩ : Annotation).Height = 0 →
        (⟨[], ⟨0, 0, 1, 0⟩, "x"⟩ : Annotation).Height <
          (transformAnn 1 1 maxFloat64 ⟨[], ⟨0, 0, 1, 0⟩, "x"⟩).Height)) := by
  have hH0 : (⟨[], ⟨0, 0, 1, 0⟩, "x"⟩ : Annotation).Height = 0 := by
    norm_num [ Annotation.Height]
  have hpos : (0 : ℚ) < maxFloat64 := by norm_num [maxFloat64]
  have hfix : transformAnn 1 1 maxFloat64 ⟨[], ⟨0, 0, 1, 0⟩, "x"⟩ =
      ⟨[], ⟨0, 0, 1, 0⟩, "x"⟩ := by
    unfold transformAnn
    rw [scaleStep_one]
    unfold aspectStep
    rw [if_pos hpos]
    simp only [hH0, ne_eq, not_true_eq_false, if_false]
    rw [if_neg (lt_irrefl maxFloat64), if_neg (lt_irrefl maxFloat64)]
  intro h
  rw [hfix] at h
  exact lt_irrefl _ (h.2.2.2 hH0)

/-- Witness for `transform_aspect` on a 10 by 5 box with target aspect
ratio 2. -/
theorem transform_aspect_witness :
    (transformAnn 1 1 2 ⟨[], ⟨0, 0, 10, 5⟩, "x"⟩).Width /
      (transformAnn 1 1 2 ⟨[], ⟨0, 0, 10, 5⟩, "x"⟩).Height = 2 ∧
    (⟨[], ⟨0, 0, 10, 5⟩, "x"⟩ : Annotation).Width ≤
      (transformAnn 1 1 2 ⟨[], ⟨0, 0, 10, 5⟩, "x"⟩).Width ∧
    (⟨[], ⟨0, 0, 10, 5⟩, "x"⟩ : Annotation).Height ≤
      (transformAnn 1 1 2 ⟨[], ⟨0, 0, 10, 5⟩, "x"⟩).Height ∧
    ((⟨[], ⟨0, 0, 10, 5⟩, "x"⟩ : Annotation).Height = 0 →
      (⟨[], ⟨0, 0, 10, 5⟩, "x"⟩ : Annotation).Height <
        (transformAnn 1 1 2 ⟨[], ⟨0, 0, 10, 5⟩, "x"⟩).Height) :=
  transform_aspect ⟨[], ⟨0, 0, 10, 5⟩, "x"⟩ 2 (by norm_num [ Annotation.Width])
    (by norm_num [ Annotation.Height])
    (by norm_num [ Annotation.Width, Annotation.Height])
    (by norm_num) (by norm_num [maxFloat64])

/-- The accumulator fold of `cropObjectsFromImage` builds the filtered
mapping of the annotations directly. -/
theorem crop_foldl_eq (f : AnnotatedFile) (img : GoImage)
    (l : List (ℕ × Annotation)) (acc : List GoRect × List AnnotatedFile) :
    l.foldl
      (fun acc p =>
        let r := (annRect p.2).Intersect img.Bounds
        if r.Empty then acc
        else (acc.1 ++ [r], acc.2 ++ [cropDerivedFile f p.1 p.2 r])) acc =
    (acc.1 ++ l.filterMap (fun p =>
        let r := (annRect p.2).Intersect img.Bounds
        if r.Empty then none else some r),
     acc.2 ++ l.filterMap (fun p =>
        let r := (annRect p.2).Intersect img.Bounds
        if r.Empty then none else some (cropDerivedFile f p.1 p.2 r))) := by
  induction l generalizing acc with
  | nil => simp
  | cons p rest ih =>
    simp only [List.foldl_cons, List.filterMap_cons]
    by_cases h : ((annRect p.2).Intersect img.Bounds).Empty = true
    · simp [h, ih]
    · simp [h, ih]

/-- Claim C2: on a sub-image-capable image, `cropObjectsFromImage`
silently drops exactly the annotations whose rounded box has an empty
intersection with the image bounds and produces, for each annotation
with a non-empty intersection, exactly one crop rectangle and one
derived single-annotation file (coordinates covering the crop, the
original label, the `CropCoords` attribute recording the absolute
intersection rectangle, and the index-derived path, as built by
`cropDerivedFile`), in annotation order; in particular a file with 3
annotations, one entirely outside the 100 by 100 image bounds, yields
exactly 2 derived files. -/
theorem crop_characterization :
    (∀ (f : AnnotatedFile) (img : GoImage), img.subImageCapable = true →
      cropObjectsFromImage f img = Except.ok
        (f.Annotations.enum.filterMap (fun p =>
           let r := (annRect p.2).Intersect img.Bounds
           if r.Empty then none else some r),
         f.Annotations.enum.filterMap (fun p =>
           let r := (annRect p.2).Intersect img.Bounds
           if r.Empty then none else some (cropDerivedFile f p.1 p.2 r)))) ∧
    ((cropObjectsFromImage
        ⟨[⟨[], ⟨10, 10, 20, 20⟩, "A"⟩, ⟨[], ⟨200, 200, 300, 300⟩, "B"⟩,
          ⟨[], ⟨-5, -5, 50, 50⟩, "C"⟩], "img.jpg"⟩
        ⟨⟨0, 0, 100, 100⟩, true⟩).toOption.map (fun x => x.2.length)) = some 2 := by
  have gen : ∀ (f : AnnotatedFile) (img : GoImage), img.subImageCapable = true →
      cropObjectsFromImage f img = Except.ok
        (f.Annotations.enum.filterMap (fun p =>
           let r := (annRect p.2).Intersect img.Bounds
           if r.Empty then none else some r),
         f.Annotations.enum.filterMap (fun p =>
           let r := (annRect p.2).Intersect img.Bounds
           if r.Empty then none else some (cropDerivedFile f p.1 p.2 r))) := by
    intro f img hc
    simp [cropObjectsFromImage, hc, crop_foldl_eq]
  refine ⟨gen, ?_⟩
  rw [gen _ _ rfl]
  have e10 : goRound (10 : ℚ) = 10 := goRound_of_nonneg _ _ (by norm_num) (by norm_num) (by norm_num)
  have e20 : goRound (20 : ℚ) = 20 := goRound_of_nonneg _ _ (by norm_num) (by norm_num) (by norm_num)
  have e200 : goRound (200 : ℚ) = 200 := goRound_of_nonneg _ _ (by norm_num) (by norm_num) (by norm_num)
  have e300 : goRound (300 : ℚ) = 300 := goRound_of_nonneg _ _ (by norm_num) (by norm_num) (by norm_num)
  have e50 : goRound (50 : ℚ) = 50 := goRound_of_nonneg _ _ (by norm_num) (by norm_num) (by norm_num)
  have em5 : goRound (-5 : ℚ) = -5 := goRound_of_neg _ _ (by norm_num) (by norm_num) (by norm_num)
  simp only [List.enum, List.enumFrom, List.filterMap, annRect, goRect,
    e10, e20, e200, e300, e50, em5]
  decide

/-- A one-annotation file used to instantiate `crop_characterization`. -/
def cropWitFile : AnnotatedFile := ⟨[⟨[], ⟨0, 0, 5, 5⟩, "A"⟩], "a.jpg"⟩

/-- A sub-image-capable 10 by 10 image used to instantiate
`crop_characterization`. -/
def cropWitImg : GoImage := ⟨⟨0, 0, 10, 10⟩, true⟩

/-- Witness for `crop_characterization`: the capability hypothesis
discharged on a one-annotation file. -/
theorem crop_characterization_witness :
    cropObjectsFromImage cropWitFile cropWitImg = Except.ok
      (cropWitFile.Annotations.enum.filterMap (fun p =>
         let r := (annRect p.2).Intersect cropWitImg.Bounds
         if r.Empty then none else some r),
       cropWitFile.Annotations.enum.filterMap (fun p =>
         let r := (annRect p.2).Intersect cropWitImg.Bounds
         if r.Empty then none
         else some (cropDerivedFile cropWitFile p.1 p.2 r))) :=
  crop_characterization.1 cropWitFile cropWitImg rfl

theorem parseMappings_error_iff (l : List String) :
    (∃ e, parseMappings l = Except.error e) ↔
      ∃ v ∈ l, (v.splitOn "=").length ≠ 2 := by
  induction l with
  | nil => simp [parseMappings]
  | cons v rest ih =>
    simp only [parseMappings]
    by_cases h : (v.splitOn "=").length = 2
    · rw [if_pos h]
      cases hp : parseMappings rest with
      | error e =>
        simp only [List.mem_cons]
        constructor
        · intro _
          obtain ⟨w, hw, hw2⟩ := ih.mp ⟨e, hp⟩
          exact ⟨w, Or.inr hw, hw2⟩
        · intro _
          exact ⟨e, rfl⟩
      | ok rs =>
        simp only [List.mem_cons]
        constructor
        · rintro ⟨e, he⟩
          cases he
        · rintro ⟨w, hw | hw, hw2⟩
          · exact absurd h (hw ▸ hw2)
          · obtain ⟨e, he⟩ := ih.mpr ⟨w, hw, hw2⟩
            rw [he] at hp
            cases hp
    · rw [if_neg h]
      exact ⟨fun _ => ⟨v, List.mem_cons_self v rest, h⟩, fun _ => ⟨_, rfl⟩⟩

theorem parseMappings_ok (l : List String) (rs : List (String × String))
    (h : parseMappings l = Except.ok rs) :
    rs = l.map (fun v => ((v.splitOn "=").getD 0 "", (v.splitOn "=").getD 1 "")) := by
  induction l generalizing rs with
  | nil =>
    simp only [parseMappings] at h
    cases h
    rfl
  | cons v rest ih =>
    simp only [parseMappings] at h
    by_cases hc : (v.splitOn "=").length = 2
    · rw [if_pos hc] at h
      cases hp : parseMappings rest with
      | error e => rw [hp] at h; cases h
      | ok rs' =>
        rw [hp] at h
        cases h
        simp only [List.map_cons, List.cons.injEq]
        exact ⟨trivial, ih rs' hp⟩
    · rw [if_neg hc] at h
      cases h

/-- Claim C7: `MapLabels` reports an error exactly when some rule
string does not split into exactly two parts on the equals sign; on an
error the dataset comes back unchanged (all rules are parsed before any
label is touched); and on success every rule is applied, in list order,
as a substring replacement to every label, later rules operating on the
output of earlier ones. -/
theorem mapLabels_spec (mappings : List String) (data : AnnotatedFiles) :
    ((MapLabels data mappings).2.isSome ↔
      ∃ v ∈ mappings, (v.splitOn "=").length ≠ 2) ∧
    ((MapLabels data mappings).2.isSome → (MapLabels data mappings).1 = data) ∧
    ((MapLabels data mappings).2 = none →
      (MapLabels data mappings).1 = data.map (fun f =>
        { f with Annotations := f.Annotations.map fun a =>
            { a with Label := mappings.foldl (fun l v =>
                goReplace l ((v.splitOn "=").getD 0 "")
                  ((v.splitOn "=").getD 1 "")) a.Label } })) := by
  unfold MapLabels
  by_cases hm : mappings = []
  · subst hm
    simp
  · rw [if_neg hm]
    cases hp : parseMappings mappings with
    | error e =>
      refine ⟨?_, fun _ => rfl, ?_⟩
      · simp only [Option.isSome_some, true_iff]
        exact (parseMappings_error_iff mappings).mp ⟨e, hp⟩
      · intro hn
        cases hn
    | ok rs =>
      have hrs := parseMappings_ok mappings rs hp
      refine ⟨?_, ?_, ?_⟩
      · simp only [Option.isSome_none]
        constructor
        · intro hfalse
          exact absurd hfalse Bool.false_ne_true
        · intro hbad
          obtain ⟨e, he⟩ := (parseMappings_error_iff mappings).mpr hbad
          rw [he] at hp
          cases hp
      · intro hsome
        cases hsome
      · intro _
        subst hrs
        simp [List.foldl_map]

/-- Witness for `mapLabels_spec`: the no-error hypothesis discharged at
an empty rule list. -/
theorem mapLabels_spec_witness :
    (MapLabels ([⟨[⟨[], ⟨0, 0, 1, 1⟩, "cat"⟩], "f.jpg"⟩] : AnnotatedFiles) []).1 =
      ([⟨[⟨[], ⟨0, 0, 1, 1⟩, "cat"⟩], "f.jpg"⟩] : AnnotatedFiles).map (fun f =>
        { f with Annotations := f.Annotations.map fun a =>
            { a with Label := List.foldl (fun l v =>
                goReplace l ((v.splitOn "=").getD 0 "")
                  ((v.splitOn "=").getD 1 "")) a.Label ([] : List String) } }) :=
  (mapLabels_spec [] ([⟨[⟨[], ⟨0, 0, 1, 1⟩, "cat"⟩], "f.jpg"⟩] : AnnotatedFiles)).2.2 rfl

theorem getD_set_self {α : Type} (l : List α) (i : ℕ) (x d : α) (h : i < l.length) :
    (l.set i x).getD i d = x := by
  induction l generalizing i with
  | nil => cases h
  | cons a tl ih =>
    cases i with
    | zero => rfl
    | succ i =>
      simp only [List.set, List.getD_cons_succ]
      exact ih i (Nat.lt_of_succ_lt_succ h)

theorem getD_set_ne {α : Type} (l : List α) (i j : ℕ) (x d : α) (h : i ≠ j) :
    (l.set i x).getD j d = l.getD j d := by
  induction l generalizing i j with
  | nil => simp
  | cons a tl ih =>
    cases i with
    | zero =>
      cases j with
      | zero => exact absurd rfl h
      | succ j => rfl
    | succ i =>
      cases j with
      | zero => rfl
      | succ j =>
        simp only [List.set, List.getD_cons_succ]
        exact ih i j (fun e => h (by rw [e]))

theorem getD_replicate_nil {α : Type} (n i : ℕ) :
    (List.replicate n ([] : List α)).getD i [] = [] := by
  induction n generalizing i with
  | zero => simp
  | succ n ih =>
    cases i with
    | zero => rfl
    | succ i => simpa [List.replicate] using ih i

theorem enumFrom_map_snd {α : Type} (n : ℕ) (l : List α) :
    (List.enumFrom n l).map Prod.snd = l := by
  induction l generalizing n with
  | nil => rfl
  | cons a tl ih => simp [List.enumFrom, ih]

theorem foldl_keep_last (l : List ℤ) (acc : ℤ) :
    l.foldl (fun _ s => s) acc = l.getLastD acc := by
  induction l generalizing acc with
  | nil => rfl
  | cons s rest ih => rw [List.foldl_cons, ih, List.getLastD_cons]

theorem assign_lt_length (splits : List ℤ) (r : ℤ) (i : ℕ)
    (h : assign splits r = some i) : i < splits.length := by
  induction splits generalizing i with
  | nil => cases h
  | cons s rest ih =>
    simp only [assign] at h
    by_cases hc : r < s
    · rw [if_pos hc] at h
      cases h
      simp
    · rw [if_neg hc] at h
      obtain ⟨j, hj, hj2⟩ := Option.map_eq_some'.mp h
      subst hj2
      simpa using ih j hj

theorem assign_total (splits : List ℤ) (r : ℤ) (hr : r < 100)
    (h100 : splits.getLastD 0 = 100) :
    ∃ i, i < splits.length ∧ assign splits r = some i := by
  induction splits with
  | nil => cases h100
  | cons s rest ih =>
    rw [List.getLastD_cons] at h100
    by_cases hc : r < s
    · exact ⟨0, by simp, by simp [assign, hc]⟩
    · cases rest with
      | nil =>
        cases h100
        exact absurd hr hc
      | cons t ts =>
        have h100' : (t :: ts).getLastD 0 = 100 := by
          rw [List.getLastD_cons] at h100 ⊢
          exact h100
        obtain ⟨i, hi, ha⟩ := ih h100'
        refine ⟨i + 1, by simpa using hi, ?_⟩
        show (if r < s then some 0 else (assign (t :: ts) r).map (· + 1)) = some (i + 1)
        rw [if_neg hc, ha]
        rfl

theorem splitLoopGo_length (g : ℕ → ℕ) (splits : List ℤ) (ds : List AnnotatedFile) :
    ∀ (j : ℕ) (bks : List AnnotatedFiles),
      (splitLoopGo g splits j ds bks).length = bks.length := by
  induction ds with
  | nil => intro j bks; rfl
  | cons d rest ih =>
    intro j bks
    simp only [splitLoopGo]
    cases h : assign splits ((g j : ℤ)) with
    | none => rw [ih]
    | some i => rw [ih]; simp

/-- The distribution loop characterized bucket by bucket: bucket `i`
collects, in input order, exactly the files whose draw assigns them
index `i`. -/
theorem splitLoopGo_getD (g : ℕ → ℕ) (splits : List ℤ) (ds : List AnnotatedFile) :
    ∀ (j : ℕ) (bks : List AnnotatedFiles), bks.length = splits.length →
    ∀ i : ℕ,
      (splitLoopGo g splits j ds bks).getD i [] =
        bks.getD i [] ++
          ((List.enumFrom j ds).filter
            (fun p => decide (assign splits ((g p.1 : ℤ)) = some i))).map Prod.snd := by
  induction ds with
  | nil => intro j bks hlen i; simp [splitLoopGo, List.enumFrom]
  | cons d rest ih =>
    intro j bks hlen i
    simp only [splitLoopGo, List.enumFrom]
    cases h : assign splits ((g j : ℤ)) with
    | none =>
      rw [ih (j + 1) bks hlen i]
      simp [h]
    | some i0 =>
      have hi0 : i0 < bks.length := hlen ▸ assign_lt_length splits _ i0 h
      by_cases hii : i0 = i
      · subst hii
        rw [ih (j + 1) _ (by simpa using hlen) i0,
          getD_set_self bks i0 _ [] hi0]
        simp [h, List.append_assoc]
      · rw [ih (j + 1) _ (by simpa using hlen) i,
          getD_set_ne bks i0 i _ [] hii]
        simp [h, hii]

/-- On success, `Split` produces the buckets of `splitLoopGo` started
from empty buckets, one per boundary entry. -/
theorem split_ok_elim (g : ℕ → ℕ) (splits : List ℤ) (data : AnnotatedFiles)
    (bs : List AnnotatedFiles) (h : Split g data splits = Except.ok bs) :
    bs = splitLoopGo g splits 0 data (List.replicate splits.length []) := by
  unfold Split at h
  by_cases hc : splits.foldl (fun _ s => s) 0 ≠ 100
  · rw [if_pos hc] at h
    cases h
  · rw [if_neg hc] at h
    cases h
    rfl

/-- The per-bucket content of a successful `Split`, shared by the
theorems about C6 and C10. -/
theorem split_buckets_eq (g : ℕ → ℕ) (splits : List ℤ) (data : AnnotatedFiles)
    (bs : List AnnotatedFiles) (h : Split g data splits = Except.ok bs) (i : ℕ) :
    bs.getD i [] = (data.enum.filter
      (fun p => decide (assign splits ((g p.1 : ℤ)) = some i))).map Prod.snd := by
  rw [split_ok_elim g splits data bs h]
  rw [splitLoopGo_getD g splits data 0 _ (by simp) i]
  rw [getD_replicate_nil]
  simp [List.enum]

theorem attrLookup_filter (m : AttrMap) (q : String → Bool) (k : String) :
    attrLookup (m.filter fun p => q p.1) k =
      if q k = true then attrLookup m k else none := by
  induction m with
  | nil => cases hq : q k <;> simp [attrLookup, hq]
  | cons p rest ih =>
    by_cases hq : q p.1 = true
    · by_cases hk : p.1 = k
      · subst hk
        simp [List.filter_cons, hq, attrLookup]
      · simp only [List.filter_cons, hq, if_true]
        simp only [attrLookup, hk, if_false, ih]
    · by_cases hk : p.1 = k
      · subst hk
        have : q p.1 = false := by revert hq; cases q p.1 <;> simp
        simp [List.filter_cons, this, attrLookup, ih]
      · simp only [List.filter_cons] at *
        rw [Bool.not_eq_true] at hq
        simp only [hq, if_false, Bool.false_eq_true, ih]
        simp only [attrLookup, hk, if_false]

theorem projectAttrs_coords (P : FilterParams) (a : Annotation) :
    (projectAttrs P a).Coords = a.Coords := by
  unfold projectAttrs
  split <;> rfl

theorem projectAttrs_label (P : FilterParams) (a : Annotation) :
    (projectAttrs P a).Label = a.Label := by
  unfold projectAttrs
  split <;> rfl

theorem projectAttrs_width (P : FilterParams) (a : Annotation) :
    (projectAttrs P a).Width = a.Width := by
  unfold Annotation.Width
  rw [projectAttrs_coords]

theorem projectAttrs_height (P : FilterParams) (a : Annotation) :
    (projectAttrs P a).Height = a.Height := by
  unfold Annotation.Height
  rw [projectAttrs_coords]

theorem projectAttrs_lookup (P : FilterParams) (a : Annotation) (k : String)
    (hne : ¬P.attributes = []) :
    attrLookup (projectAttrs P a).Attributes k =
      if inList k P.attributes = true then attrLookup a.Attributes k else none := by
  unfold projectAttrs
  rw [if_neg hne]
  exact attrLookup_filter a.Attributes (fun s => inList s P.attributes) k

theorem projectAttrs_idem (P : FilterParams) (a : Annotation) :
    projectAttrs P (projectAttrs P a) = projectAttrs P a := by
  unfold projectAttrs
  by_cases h : P.attributes = []
  · simp [h]
  · simp only [h, if_false]
    simp [List.filter_filter]

theorem requiredAttrsCheck_congr (ks : List String) (m1 m2 : AttrMap)
    (h : ∀ k ∈ ks, attrLookup m1 k = attrLookup m2 k) :
    requiredAttrsCheck ks m1 = requiredAttrsCheck ks m2 := by
  induction ks with
  | nil => rfl
  | cons k rest ih =>
    simp only [requiredAttrsCheck]
    rw [h k (List.mem_cons_self k rest)]
    cases hv : attrLookup m2 k with
    | none => rfl
    | some v =>
      dsimp only
      cases hz : goZeroCompare v with
      | none => rfl
      | some b =>
        cases b
        · exact ih (fun k2 hk => h k2 (List.mem_cons_of_mem _ hk))
        · rfl

theorem confFails_project (P : FilterParams) (a : Annotation)
    (h : confFails P a = false) : confFails P (projectAttrs P a) = false := by
  by_cases he : P.attributes = []
  · unfold projectAttrs
    rw [if_pos he]
    exact h
  · unfold confFails at h ⊢
    rw [projectAttrs_lookup P a Confidence he]
    by_cases hi : inList Confidence P.attributes = true
    · rw [if_pos hi]
      exact h
    · rw [if_neg hi]

theorem sizeFails_project (P : FilterParams) (a : Annotation) :
    sizeFails P (projectAttrs P a) = sizeFails P a := by
  unfold sizeFails
  rw [projectAttrs_width, projectAttrs_height]

theorem arFails_project (P : FilterParams) (a : Annotation) :
    arFails P (projectAttrs P a) = arFails P a := by
  unfold arFails
  rw [projectAttrs_width, projectAttrs_height]

theorem labelFails_project (P : FilterParams) (a : Annotation) :
    labelFails P (projectAttrs P a) = labelFails P a := by
  unfold labelFails
  rw [projectAttrs_label]

theorem requiredAttrsCheck_project (P : FilterParams) (a : Annotation)
    (hP : P.attributes = [] ∨ ∀ k ∈ P.requiredAttrs, inList k P.attributes = true) :
    requiredAttrsCheck P.requiredAttrs (projectAttrs P a).Attributes =
      requiredAttrsCheck P.requiredAttrs a.Attributes := by
  cases hP with
  | inl he =>
    unfold projectAttrs
    rw [if_pos he]
  | inr hk =>
    by_cases he : P.attributes = []
    · unfold projectAttrs
      rw [if_pos he]
    · refine requiredAttrsCheck_congr _ _ _ (fun k hmem => ?_)
      rw [projectAttrs_lookup P a k he, if_pos (hk k hmem)]

theorem annDecision_true_iff (P : FilterParams) (a : Annotation) :
    annDecision P a = some true ↔
      confFails P a = false ∧ sizeFails P a = false ∧ arFails P a = false ∧
      labelFails P a = false ∧
      requiredAttrsCheck P.requiredAttrs a.Attributes = some false := by
  unfold annDecision
  constructor
  · intro h
    by_cases h1 : confFails P a = true
    · rw [if_pos h1] at h
      cases h
    · rw [if_neg h1] at h
      by_cases h2 : sizeFails P a = true
      · rw [if_pos h2] at h
        cases h
      · rw [if_neg h2] at h
        by_cases h3 : arFails P a = true
        · rw [if_pos h3] at h
          cases h
        · rw [if_neg h3] at h
          by_cases h4 : labelFails P a = true
          · rw [if_pos h4] at h
            cases h
          · rw [if_neg h4] at h
            rw [Bool.not_eq_true] at h1 h2 h3 h4
            refine ⟨h1, h2, h3, h4, ?_⟩
            cases h5 : requiredAttrsCheck P.requiredAttrs a.Attributes with
            | none =>
              rw [h5] at h
              cases h
            | some b =>
              rw [h5] at h
              cases b
              · rfl
              · cases h
  · rintro ⟨h1, h2, h3, h4, h5⟩
    rw [if_neg (by simp [h1]), if_neg (by simp [h2]), if_neg (by simp [h3]),
      if_neg (by simp [h4]), h5]

/-- A kept annotation stays kept after attribute projection, provided
every required attribute is in the (possibly empty) attribute
allow-list. -/
theorem annDecision_project (P : FilterParams) (a : Annotation)
    (hP : P.attributes = [] ∨ ∀ k ∈ P.requiredAttrs, inList k P.attributes = true)
    (h : annDecision P a = some true) :
    annDecision P (projectAttrs P a) = some true := by
  obtain ⟨h1, h2, h3, h4, h5⟩ := (annDecision_true_iff P a).mp h
  refine (annDecision_true_iff P _).mpr
    ⟨confFails_project P a h1, ?_, ?_, ?_, ?_⟩
  · rw [sizeFails_project]
    exact h2
  · rw [arFails_project]
    exact h3
  · rw [labelFails_project]
    exact h4
  · rw [requiredAttrsCheck_project P a hP]
    exact h5

/-- Every annotation in the output of the annotation loop satisfies any
property that holds of the already-processed prefix and of every
projected kept annotation. -/
theorem filterAnnosGo_post (P : FilterParams) (Q : Annotation → Prop)
    (hQ : ∀ a, annDecision P a = some true → Q (projectAttrs P a)) :
    ∀ (n : ℕ) (todo : List Annotation), todo.length ≤ n →
    ∀ (done out : List Annotation), (∀ a ∈ done, Q a) →
      filterAnnosGo P done todo = some out → ∀ a ∈ out, Q a := by
  intro n
  induction n with
  | zero =>
    intro todo hlen done out hdone heq
    have ht : todo = [] := List.length_eq_zero.mp (Nat.le_zero.mp hlen)
    subst ht
    simp only [filterAnnosGo] at heq
    cases heq
    exact hdone
  | succ n ih =>
    intro todo hlen done out hdone heq
    cases todo with
    | nil =>
      simp only [filterAnnosGo] at heq
      cases heq
      exact hdone
    | cons a rest =>
      simp only [filterAnnosGo] at heq
      cases hd : annDecision P a with
      | none =>
        rw [hd] at heq
        cases heq
      | some b =>
        rw [hd] at heq
        cases b
        · exact ih (swapFront rest)
            (by rw [swapFront_length]; exact Nat.le_of_succ_le_succ hlen)
            done out hdone heq
        · refine ih rest (Nat.le_of_succ_le_succ hlen) _ out ?_ heq
          intro x hx
          rcases List.mem_append.mp hx with hx | hx
          · exact hdone x hx
          · rw [List.mem_singleton.mp hx]
            exact hQ a hd

/-- A list whose annotations are all kept and projection-invariant is a
fixed point of the annotation loop. -/
theorem filterAnnosGo_fix (P : FilterParams) :
    ∀ (todo done : List Annotation),
      (∀ a ∈ todo, annDecision P a = some true ∧ projectAttrs P a = a) →
      filterAnnosGo P done todo = some (done ++ todo) := by
  intro todo
  induction todo with
  | nil =>
    intro done h
    simp [filterAnnosGo]
  | cons a rest ih =>
    intro done h
    have ha := h a (List.mem_cons_self a rest)
    simp only [filterAnnosGo]
    rw [ha.1]
    show filterAnnosGo P (done ++ [projectAttrs P a]) rest = some (done ++ a :: rest)
    rw [ha.2, ih (done ++ [a]) (fun x hx => h x (List.mem_cons_of_mem _ hx))]
    simp

/-- Every file in the output of `Filter` consists of kept,
projection-invariant annotations, and is non-empty when `requireLabel`
is set. -/
theorem filterFilesGo_post (P : FilterParams)
    (hP : P.attributes = [] ∨ ∀ k ∈ P.requiredAttrs, inList k P.attributes = true) :
    ∀ (n : ℕ) (todo : List AnnotatedFile), todo.length ≤ n →
    ∀ (done out : List AnnotatedFile),
      (∀ f ∈ done, (∀ a ∈ f.Annotations,
          annDecision P a = some true ∧ projectAttrs P a = a) ∧
        (P.requireLabel = true → f.Annotations ≠ [])) →
      filterFilesGo P done todo = some out →
      ∀ f ∈ out, (∀ a ∈ f.Annotations,
          annDecision P a = some true ∧ projectAttrs P a = a) ∧
        (P.requireLabel = true → f.Annotations ≠ []) := by
  intro n
  induction n with
  | zero =>
    intro todo hlen done out hdone heq
    have ht : todo = [] := List.length_eq_zero.mp (Nat.le_zero.mp hlen)
    subst ht
    simp only [filterFilesGo] at heq
    cases heq
    exact hdone
  | succ n ih =>
    intro todo hlen done out hdone heq
    cases todo with
    | nil =>
      simp only [filterFilesGo] at heq
      cases heq
      exact hdone
    | cons f rest =>
      simp only [filterFilesGo] at heq
      cases hfa : filterAnnosGo P [] f.Annotations with
      | none =>
        rw [hfa] at heq
        cases heq
      | some anns =>
        rw [hfa] at heq
        dsimp only at heq
        by_cases hcond : P.requireLabel = true ∧ anns = []
        · rw [if_pos hcond] at heq
          exact ih (swapFront rest)
            (by rw [swapFront_length]; exact Nat.le_of_succ_le_succ hlen)
            done out hdone heq
        · rw [if_neg hcond] at heq
          refine ih rest (Nat.le_of_succ_le_succ hlen) _ out ?_ heq
          intro x hx
          rcases List.mem_append.mp hx with hx | hx
          · exact hdone x hx
          · rw [List.mem_singleton.mp hx]
            refine ⟨?_, ?_⟩
            · intro a ha
              exact filterAnnosGo_post P
                (fun a => annDecision P a = some true ∧ projectAttrs P a = a)
                (fun b hb => ⟨annDecision_project P b hP hb, projectAttrs_idem P b⟩)
                f.Annotations.length f.Annotations (le_refl _) [] anns
                (by simp) hfa a ha
            · intro hreq hempty
              exact hcond ⟨hreq, hempty⟩

/-- A dataset of fixed-point files is a fixed point of the file loop. -/
theorem filterFilesGo_fix (P : FilterParams) :
    ∀ (todo done : List AnnotatedFile),
      (∀ f ∈ todo, (∀ a ∈ f.Annotations,
          annDecision P a = some true ∧ projectAttrs P a = a) ∧
        (P.requireLabel = true → f.Annotations ≠ [])) →
      filterFilesGo P done todo = some (done ++ todo) := by
  intro todo
  induction todo with
  | nil =>
    intro done h
    simp [filterFilesGo]
  | cons f rest ih =>
    intro done h
    have hf := h f (List.mem_cons_self f rest)
    have hfa : filterAnnosGo P [] f.Annotations = some f.Annotations := by
      simpa using filterAnnosGo_fix P f.Annotations [] hf.1
    simp only [filterFilesGo]
    rw [hfa]
    show (if P.requireLabel = true ∧ f.Annotations = [] then
        filterFilesGo P done (swapFront rest)
      else filterFilesGo P (done ++ [{ f with Annotations := f.Annotations }]) rest) =
      some (done ++ f :: rest)
    rw [if_neg (fun hc => hf.2 hc.1 hc.2)]
    have hfe : ({ f with Annotations := f.Annotations } : AnnotatedFile) = f := rfl
    rw [hfe, ih (done ++ [f]) (fun x hx => h x (List.mem_cons_of_mem _ hx))]
    simp

/-- Claim C4 (amended): `Filter` is idempotent provided every required
attribute is listed in the attribute allow-list, or the attribute
allow-list is empty (projection disabled): a second application with
the same parameter bundle to a successful output returns that output
unchanged.  The proviso is forced by `filter_not_idempotent_cex`: when
a required attribute is outside a non-empty allow-list, the first pass
keeps the annotation and then deletes that attribute, so the second
pass drops the annotation. -/
theorem filter_idempotent (P : FilterParams)
    (hP : P.attributes = [] ∨ ∀ k ∈ P.requiredAttrs, inList k P.attributes = true)
    (data out : AnnotatedFiles) (h : Filter P data = some out) :
    Filter P out = some out := by
  unfold Filter at h ⊢
  have hout := filterFilesGo_post P hP data.length data (le_refl _) [] out
    (by simp) h
  simpa using filterFilesGo_fix P out [] hout

/-- Counterexample to claim C4 as stated: with the attribute allow-list
`{Y}` and required attribute `X`, the first application keeps the
annotation (its `X` is the non-zero float 1) but projects `X` away; the
second application then deletes the annotation because `X` is missing,
so applying `Filter` twice changes the dataset further. -/
theorem filter_not_idempotent_cex :
    Filter ⟨[], ["Y"], ["X"], 0, false, 0, 0, 0, 0⟩
        [⟨[⟨[("X", AttrValue.float 1)], ⟨0, 0, 1, 1⟩, "l"⟩], "f.jpg"⟩] =
      some [⟨[⟨[], ⟨0, 0, 1, 1⟩, "l"⟩], "f.jpg"⟩] ∧
    Filter ⟨[], ["Y"], ["X"], 0, false, 0, 0, 0, 0⟩
        [⟨[⟨[], ⟨0, 0, 1, 1⟩, "l"⟩], "f.jpg"⟩] =
      some [⟨[], "f.jpg"⟩] ∧
    (some [⟨[⟨[], ⟨0, 0, 1, 1⟩, "l"⟩], "f.jpg"⟩] : Option AnnotatedFiles) ≠
      some [⟨[], "f.jpg"⟩] := by
  refine ⟨?_, ?_, by simp⟩
  · norm_num [Filter, filterFilesGo, filterAnnosGo, annDecision, confFails, sizeFails,
      arFails, labelFails, attrLookup, Confidence, requiredAttrsCheck, goZeroCompare,
      projectAttrs, inList, swapFront, Annotation.Width, Annotation.Height]
    try decide
  · norm_num [Filter, filterFilesGo, filterAnnosGo, annDecision, confFails, sizeFails,
      arFails, labelFails, attrLookup, Confidence, requiredAttrsCheck, goZeroCompare,
      projectAttrs, inList, swapFront, Annotation.Width, Annotation.Height]
    try decide

/-- Witness for `filter_idempotent`: the proviso and the first-pass
hypothesis discharged on an empty allow-list configuration. -/
theorem filter_idempotent_witness :
    Filter ⟨[], [], [], 0, false, 0, 0, 0, 0⟩
        [⟨[⟨[], ⟨0, 0, 1, 1⟩, "l"⟩], "f.jpg"⟩] =
      some [⟨[⟨[], ⟨0, 0, 1, 1⟩, "l"⟩], "f.jpg"⟩] :=
  filter_idempotent ⟨[], [], [], 0, false, 0, 0, 0, 0⟩ (Or.inl rfl)
    [⟨[⟨[], ⟨0, 0, 1, 1⟩, "l"⟩], "f.jpg"⟩]
    [⟨[⟨[], ⟨0, 0, 1, 1⟩, "l"⟩], "f.jpg"⟩]
    (by norm_num [Filter, filterFilesGo, filterAnnosGo, annDecision, confFails,
      sizeFails, arFails, labelFails, attrLookup, Confidence, requiredAttrsCheck,
      goZeroCompare, projectAttrs, inList, swapFront, Annotation.Width,
      Annotation.Height])

/-- Claim C6: `Split` fails with the invalid-split error exactly when
the final cumulative boundary entry is not 100 (an empty boundary list
included); on success it returns one dataset per boundary entry, bucket
`i` holds exactly the files whose draw is first exceeded at boundary
`i` (so buckets are pairwise disjoint, the assignment being a
function), and every input file is assigned to exactly one bucket, so
the union of the buckets is exactly the input set. -/
theorem split_spec (g : ℕ → ℕ) (splits : List ℤ) (data : AnnotatedFiles)
    (hg : ∀ j, (g j : ℤ) < 100) :
    ((∃ e, Split g data splits = Except.error e) ↔ splits.getLastD 0 ≠ 100) ∧
    (∀ bs, Split g data splits = Except.ok bs →
      bs.length = splits.length ∧
      (∀ i : ℕ, bs.getD i [] =
        ((data.enum.filter
          (fun p => decide (assign splits ((g p.1 : ℤ)) = some i))).map Prod.snd)) ∧
      (∀ j, j < data.length →
        ∃ i, i < splits.length ∧ assign splits ((g j : ℤ)) = some i)) := by
  have hsum : splits.foldl (fun _ s => s) 0 = splits.getLastD 0 := foldl_keep_last splits 0
  constructor
  · constructor
    · rintro ⟨e, he⟩
      unfold Split at he
      by_cases hc : splits.foldl (fun _ s => s) 0 ≠ 100
      · rw [hsum] at hc
        exact hc
      · rw [if_neg hc] at he
        cases he
    · intro hne
      refine ⟨"the split percentages do not add up to 100", ?_⟩
      unfold Split
      rw [if_pos (by rw [hsum]; exact hne)]
  · intro bs hok
    have hbs := split_ok_elim g splits data bs hok
    refine ⟨?_, fun i => split_buckets_eq g splits data bs hok i, ?_⟩
    · rw [hbs, splitLoopGo_length]
      simp
    · have h100 : splits.getLastD 0 = 100 := by
        by_contra hne
        unfold Split at hok
        rw [if_pos (by rw [hsum]; exact hne)] at hok
        cases hok
      intro j _
      exact assign_total splits _ (hg j) h100

/-- Witness for `split_spec`: the draw-range hypothesis discharged at a
constant draw function, over a boundary list that does not end in
100. -/
theorem split_spec_witness :
    (∃ e, Split (fun _ => 0) ([⟨[], "a.jpg"⟩] : AnnotatedFiles) [50] =
      Except.error e) ↔ ([50] : List ℤ).getLastD 0 ≠ 100 :=
  (split_spec (fun _ => 0) [50] [⟨[], "a.jpg"⟩] (fun _ => by norm_num)).1

/-- Claim C10: when `Split` succeeds, every returned bucket is a
subsequence of the input dataset; within every bucket the files appear
in the same relative order as in the input. -/
theorem split_buckets_sublist (g : ℕ → ℕ) (splits : List ℤ) (data : AnnotatedFiles)
    (bs : List AnnotatedFiles) (h : Split g data splits = Except.ok bs) :
    ∀ b ∈ bs, List.Sublist b data := by
  intro b hb
  obtain ⟨n, hget⟩ := List.mem_iff_get.mp hb
  have hbd : bs.getD n.1 [] = b := by
    rw [List.getD_eq_getElem bs [] n.2, ← List.get_eq_getElem]
    exact hget
  rw [← hbd, split_buckets_eq g splits data bs h n.1]
  have hsub : List.Sublist (data.enum.filter
      (fun p => decide (assign splits ((g p.1 : ℤ)) = some n.1))) data.enum :=
    List.filter_sublist _
  have hmap := hsub.map Prod.snd
  have h2 : data.enum.map Prod.snd = data := enumFrom_map_snd 0 data
  rwa [h2] at hmap

/-- Witness for `split_buckets_sublist` at a one-file dataset and the
boundary list with the single entry 100. -/
theorem split_buckets_sublist_witness :
    List.Sublist ([⟨[], "a.jpg"⟩] : AnnotatedFiles) ([⟨[], "a.jpg"⟩] : AnnotatedFiles) :=
  split_buckets_sublist (fun _ => 0) [100] [⟨[], "a.jpg"⟩] [[⟨[], "a.jpg"⟩]] rfl
    [⟨[], "a.jpg"⟩] (by simp)

/-- Witness for `processImages_noop` at a concrete configuration with
bogus filter and encoding names and an environment without images. -/
theorem processImages_noop_witness :
    ProcessImages (fun _ => none) "out" 0 0 "bogus1" "bogus2" "bogus3" 90 false
      [⟨[], "a.png"⟩] = Except.ok ([⟨[], "a.png"⟩], []) :=
  processImages_noop (fun _ => none) "out" 0 0 "bogus1" "bogus2" "bogus3" 90
    [⟨[], "a.png"⟩] (by decide) (by decide)

end Lblconv
